import Mathlib

/-!
Verification development for the DevSprint task tracker.

The frontend (React/TypeScript under `frontend/src`) is embedded directly
from its source files.  The backend business-logic layer (FastAPI, the
"Policy Engine" and "Integrity Coordinator" of the design document) is not
part of the repository snapshot, so it is modelled from the specification;
every such definition carries a doc comment starting with
`Modelled from the spec:`.
-/

namespace DevSprint

/-! Data model, from `frontend/src/types/index.ts`. -/

/-- `type Role = 'lead' | 'dev'` -/
inductive Role where
  | lead
  | dev
deriving DecidableEq, Repr

/-- `type TaskStatus = 'todo' | 'inprogress' | 'done'` -/
inductive TaskStatus where
  | todo
  | inprogress
  | done
deriving DecidableEq, Repr

/-- `type Priority = 'low' | 'medium' | 'high'` -/
inductive Priority where
  | low
  | medium
  | high
deriving DecidableEq, Repr

/-- `interface User` from `types/index.ts`. -/
structure User where
  id : Nat
  email : String
  full_name : String
  role : Role
deriving DecidableEq, Repr

/-- `interface Project` from `types/index.ts`.  `description` is nullable. -/
structure Project where
  id : Nat
  title : String
  description : Option String
  owner_id : Nat
  members : List User
deriving DecidableEq, Repr

/-- `interface Task` from `types/index.ts`. -/
structure Task where
  id : Nat
  title : String
  description : Option String
  status : TaskStatus
  priority : Priority
  project_id : Nat
  assignee_id : Option Nat
deriving DecidableEq, Repr

/-- `interface ProjectCreate` from `types/index.ts`. -/
structure ProjectCreate where
  title : String
  description : Option String
deriving DecidableEq, Repr

/-- `interface ProjectUpdate` from `types/index.ts`.  `none` encodes a field
whose value is the JS `undefined`. -/
structure ProjectUpdate where
  title : Option String
  description : Option String
deriving DecidableEq, Repr

/-- `interface TaskUpdate` from `types/index.ts`.  Each field is optional;
for `assignee_id` the wire format distinguishes an absent field (JS
`undefined`, dropped by JSON serialization — outer `none`), an explicit
`null` (`some none`), and a user id (`some (some n)`). -/
structure TaskUpdate where
  title : Option String
  description : Option String
  status : Option TaskStatus
  priority : Option Priority
  assignee_id : Option (Option Nat)
deriving DecidableEq, Repr

/-- `interface TaskCreate` from `types/index.ts`, same `assignee_id`
encoding as `TaskUpdate`. -/
structure TaskCreate where
  title : String
  description : Option String
  status : TaskStatus
  priority : Priority
  assignee_id : Option (Option Nat)
deriving DecidableEq, Repr

/-! Component embeddings, from the React sources. -/

/-- `isLead = user?.role === 'lead'` — computed in `EditTaskModal.tsx`,
`InviteMemberModal.tsx` and `AuthContext.tsx` from the authenticated user. -/
def isLeadOf (user : Option User) : Bool :=
  match user with
  | some u => u.role == Role.lead
  | none => false

/-- The assignee `<select>` of `CreateTaskModal` (part_004, lines 144-157):
one `Unassigned` option with empty value, then one option per element of
the `members` prop, valued by the member's id. -/
def createTaskAssigneeOptions (members : List User) : List (Option Nat) :=
  none :: members.map (fun m => some m.id)

/-- The assignee `<select>` of `EditTaskModal.tsx` (lines 192-204): one
`Unassigned` option with empty value, then one option per member. -/
def editTaskAssigneeOptions (members : List User) : List (Option Nat) :=
  none :: members.map (fun m => some m.id)

/-- `InviteMemberModal.tsx` lines 152-154: for each rendered member row,
`isOwner = member.id === ownerId` and `canRemove = isLead && !isOwner`;
the remove button is rendered exactly when `canRemove` holds. -/
def canRemoveFor (user : Option User) (memberId ownerId : Nat) : Bool :=
  isLeadOf user && !(memberId == ownerId)

/-- `InviteMemberModal.tsx` lines 32-34:
`currentMemberIds = new Set(currentMembers.map(m => m.id))` and
`availableUsers = allUsers.filter(u => !currentMemberIds.has(u.id))`. -/
def availableUsers (allUsers currentMembers : List User) : List User :=
  let currentMemberIds := currentMembers.map (fun m => m.id)
  allUsers.filter (fun u => !(currentMemberIds.contains u.id))

/-- `EditTaskModal.tsx` lines 218-228: the Delete button is rendered
exactly when `isLead` holds. -/
def editTaskDeleteShown (user : Option User) : Bool :=
  isLeadOf user

/-- `EditTaskModal.tsx` `handleSubmit` (lines 68-79): the payload sent to
`PATCH /tasks/{id}`.  `description || undefined` maps the empty string to
an absent field; `assignee_id: assigneeId` carries the component state,
which is `undefined` when the `Unassigned` option is selected, and a JS
field holding `undefined` is dropped by JSON serialization — hence
`assigneeId.map some`, never `some none`. -/
def buildEditTaskUpdate (title descr : String) (st : TaskStatus)
    (pr : Priority) (assigneeId : Option Nat) : TaskUpdate :=
  { title := some title
    description := if descr == "" then none else some descr
    status := some st
    priority := some pr
    assignee_id := assigneeId.map some }

/-- `CreateTaskModal` `handleSubmit` (part_004, lines 44-53): the payload
sent to `POST /projects/{id}/tasks/`; status is hardcoded to `'todo'`. -/
def buildCreateTaskPayload (title descr : String) (pr : Priority)
    (assigneeId : Option Nat) : TaskCreate :=
  { title := title
    description := if descr == "" then none else some descr
    status := TaskStatus.todo
    priority := pr
    assignee_id := assigneeId.map some }

/-- `DropResult` as used by `handleDragEnd` in `ProjectBoardPage`
(part_007): the droppable ids are exactly the three status column ids. -/
structure DropResult where
  destination : Option (TaskStatus × Nat)
  source : TaskStatus × Nat
  draggableId : Nat
deriving DecidableEq, Repr

/-- `handleDragEnd` from `ProjectBoardPage` (part_007, lines 84-101):
returns the `(taskId, status)` update mutation it issues, or `none` when
the drop is ignored (no destination, or same column and index). -/
def handleDragEnd (result : DropResult) : Option (Nat × TaskStatus) :=
  match result.destination with
  | none => none
  | some destination =>
      if destination.1 == result.source.1 && destination.2 == result.source.2 then
        none
      else
        some (result.draggableId, destination.1)

/-- The optimistic cache row built by `CreateProjectModal` (part_005,
lines 71-80): `id: Date.now()` is modelled by the `nowId` parameter;
`owner_id: user?.id || 0`; `members: user ? [user] : []`. -/
def optimisticProject (nowId : Nat) (np : ProjectCreate) (user : Option User) : Project :=
  { id := nowId
    title := np.title
    description :=
      match np.description with
      | some d => if d == "" then none else some d
      | none => none
    owner_id :=
      match user with
      | some u => if u.id == 0 then 0 else u.id
      | none => 0
    members :=
      match user with
      | some u => [u]
      | none => [] }

/-! Optimistic-mutation flows (TanStack Query cache), from the three
mutations cited by the cache-atomicity claim.  A cache value of `none`
models a query key holding no data (JS `undefined`). -/

/-- `updateTaskMutation` of `ProjectBoardPage` (part_007, lines 50-82):
`onMutate` snapshots the previous tasks and writes the optimistic list;
`onError` runs `if (context?.previousTasks) setQueryData(previousTasks)` —
an empty array is truthy in JS, so the rollback is skipped only when the
snapshot was `undefined`. -/
def updateTaskFlow (cache : Option (List Task)) (taskId : Nat)
    (newStatus : TaskStatus) (serverFails : Bool) : Option (List Task) :=
  let previousTasks := cache
  let optimistic :=
    some ((cache.getD []).map (fun t =>
      if t.id == taskId then { t with status := newStatus } else t))
  if serverFails then
    match previousTasks with
    | some p => some p
    | none => optimistic
  else optimistic

/-- `createMutation` of `CreateProjectModal` (part_005, lines 61-103):
same snapshot/rollback shape, with the optimistic row appended. -/
def createProjectFlow (cache : Option (List Project)) (nowId : Nat)
    (np : ProjectCreate) (user : Option User) (serverFails : Bool) :
    Option (List Project) :=
  let previousProjects := cache
  let optimistic := some ((cache.getD []) ++ [optimisticProject nowId np user])
  if serverFails then
    match previousProjects with
    | some p => some p
    | none => optimistic
  else optimistic

/-- A project row as it exists in the client cache at runtime: after the
JS spread `{ ...p, ...updatedProject }` in `EditProjectModal` the `title`
and `description` keys hold whatever the update payload held, possibly
`undefined`, so both are `Option` here.  A server-fetched row always has
`title` present. -/
structure CachedProject where
  id : Nat
  title : Option String
  description : Option String
  owner_id : Nat
  members : List User
deriving DecidableEq, Repr

/-- The spread `{ ...p, ...updatedProject }` in `EditProjectModal`
(EditTaskModal.tsx file, lines 304-310): `handleSubmit` always builds the
payload with both keys present (possibly `undefined`), and a JS spread
copies own keys even when their value is `undefined`. -/
def spreadProjectUpdate (p : CachedProject) (u : ProjectUpdate) : CachedProject :=
  { id := p.id
    title := u.title
    description := u.description
    owner_id := p.owner_id
    members := p.members }

/-- `updateMutation` of `EditProjectModal` (EditTaskModal.tsx file,
lines 294-331): snapshot, optimistic map over the cached list, and the
same truthiness-guarded rollback on error. -/
def editProjectFlow (cache : Option (List CachedProject)) (projectId : Nat)
    (u : ProjectUpdate) (serverFails : Bool) : Option (List CachedProject) :=
  let previousProjects := cache
  let optimistic :=
    some ((cache.getD []).map (fun p =>
      if p.id == projectId then spreadProjectUpdate p u else p))
  if serverFails then
    match previousProjects with
    | some p => some p
    | none => optimistic
  else optimistic

/-! Backend model.  The FastAPI business-logic layer (`backend/crud.py`,
`backend/main.py`) is referenced by the repository's documentation but is
not part of the snapshot; the definitions below are therefore modelled
from the specification (sections 3, 4.1, 4.2 and 7). -/

namespace Server

/-- Modelled from the spec: a project row — id, title, description,
owner (a User id).  The member set is derived, not stored here. -/
structure Project where
  id : Nat
  title : String
  description : Option String
  owner : Nat
deriving DecidableEq, Repr

/-- Modelled from the spec: a task row — id, title, description, status,
priority, owning project id, optional assignee. -/
structure Task where
  id : Nat
  title : String
  description : Option String
  status : TaskStatus
  priority : Priority
  projectId : Nat
  assignee : Option Nat
deriving DecidableEq, Repr

/-- Modelled from the spec: the authenticated principal (id + role). -/
structure Principal where
  id : Nat
  role : Role
deriving DecidableEq, Repr

/-- Modelled from the spec: the entity store — users, projects, explicit
membership edges `(project id, user id)`, tasks.  Owner-membership is
implicit and derived, never an edge. -/
structure State where
  users : List User
  projects : List Project
  memberships : List (Nat × Nat)
  tasks : List Task
deriving DecidableEq, Repr

/-- Modelled from the spec: the typed rejection taxonomy (section 7);
only the variants the modelled commands can produce. -/
inductive Err where
  | validationError
  | notFound
  | forbidden
  | conflict
deriving DecidableEq, Repr

/-- Modelled from the spec: get-project-by-id on the store. -/
def findProject (s : State) (pid : Nat) : Option Project :=
  s.projects.find? (fun p => p.id == pid)

/-- Modelled from the spec: get-task-by-id on the store. -/
def findTask (s : State) (tid : Nat) : Option Task :=
  s.tasks.find? (fun t => t.id == tid)

/-- Modelled from the spec: user-existence check on the store. -/
def userExists (s : State) (uid : Nat) : Bool :=
  s.users.any (fun u => u.id == uid)

/-- Modelled from the spec: the derived member set
`member_set = {owner} ∪ explicitly invited users` (sections 3 and 9). -/
def memberSet (s : State) (p : Project) : List Nat :=
  p.owner :: (s.memberships.filter (fun e => e.1 == p.id)).map (fun e => e.2)

/-- Modelled from the spec: membership test against the derived member set. -/
def isMember (s : State) (p : Project) (uid : Nat) : Bool :=
  decide (uid ∈ memberSet s p)

/-- Modelled from the spec: the id the store generates for a new project
(fresh: strictly greater than every existing project id). -/
def newProjectId (s : State) : Nat :=
  (s.projects.map (fun p => p.id)).foldr max 0 + 1

/-- Modelled from the spec: the id the store generates for a new task
(fresh: strictly greater than every existing task id). -/
def newTaskId (s : State) : Nat :=
  (s.tasks.map (fun t => t.id)).foldr max 0 + 1

/-- Modelled from the spec (section 4.2 CreateProject): requires role
lead (section 4.1) and a non-empty title; creates the project with
`owner = principal`; the member set is the derived singleton `{owner}`,
so no membership edge is written. -/
def createProject (s : State) (title : String) (descr : Option String)
    (pr : Principal) : Except Err (State × Project) :=
  if pr.role != Role.lead then .error .forbidden
  else if title == "" then .error .validationError
  else
    let p : Project :=
      { id := newProjectId s, title := title, description := descr, owner := pr.id }
    .ok ({ s with projects := s.projects ++ [p] }, p)

/-- Modelled from the spec (section 4.2 and 6 UpdateProject): owner only;
existence and tenant isolation (non-member sees NotFound, sections 4.1
and 9) checked first; applies any subset of title/description. -/
def updateProject (s : State) (pid : Nat) (u : ProjectUpdate)
    (pr : Principal) : Except Err State :=
  match findProject s pid with
  | none => .error .notFound
  | some p =>
    if !(isMember s p pr.id) then .error .notFound
    else if pr.id != p.owner then .error .forbidden
    else
      .ok { s with projects := s.projects.map (fun q =>
        if q.id == pid then
          { q with
            title := u.title.getD q.title
            description :=
              match u.description with
              | some d => some d
              | none => q.description }
        else q) }

/-- Modelled from the spec (section 4.2 DeleteProject): owner only;
deletes, in one transaction, all tasks of the project, all membership
edges, then the project row. -/
def deleteProject (s : State) (pid : Nat) (pr : Principal) : Except Err State :=
  match findProject s pid with
  | none => .error .notFound
  | some p =>
    if !(isMember s p pr.id) then .error .notFound
    else if pr.id != p.owner then .error .forbidden
    else
      .ok { s with
        projects := s.projects.filter (fun q => !(q.id == pid))
        memberships := s.memberships.filter (fun e => !(e.1 == pid))
        tasks := s.tasks.filter (fun t => !(t.projectId == pid)) }

/-- Modelled from the spec (section 4.2 AddMember): owner only; Conflict
if the user is already a member (including the owner); NotFound if the
user does not exist; on success the edge is inserted. -/
def addMember (s : State) (pid uid : Nat) (pr : Principal) : Except Err State :=
  match findProject s pid with
  | none => .error .notFound
  | some p =>
    if !(isMember s p pr.id) then .error .notFound
    else if pr.id != p.owner then .error .forbidden
    else if isMember s p uid then .error .conflict
    else if !(userExists s uid) then .error .notFound
    else .ok { s with memberships := s.memberships ++ [(pid, uid)] }

/-- Modelled from the spec (section 4.2 RemoveMember): owner only;
Conflict if the target is the owner (owner protection); NotFound if the
target is not currently a member; on success, within the same
transaction, the edge is deleted and every task of the project assigned
to the removed user is unassigned. -/
def removeMember (s : State) (pid uid : Nat) (pr : Principal) : Except Err State :=
  match findProject s pid with
  | none => .error .notFound
  | some p =>
    if !(isMember s p pr.id) then .error .notFound
    else if pr.id != p.owner then .error .forbidden
    else if uid == p.owner then .error .conflict
    else if !(isMember s p uid) then .error .notFound
    else
      .ok { s with
        memberships := s.memberships.filter (fun e => !(e.1 == pid && e.2 == uid))
        tasks := s.tasks.map (fun t =>
          if t.projectId == pid && t.assignee == some uid then
            { t with assignee := none }
          else t) }

/-- Modelled from the spec (section 4.2 CreateTask): member only (the
tenant-isolation collapse of section 4.1 turns the membership failure
into NotFound); a provided assignee must be in the member set at commit
time, else Conflict; status defaults to todo when unspecified.  The wire
payload is the frontend's `TaskCreate`, where an `assignee_id` of
`some none` is an explicit null. -/
def createTask (s : State) (pid : Nat) (f : TaskCreate) (pr : Principal) :
    Except Err State :=
  match findProject s pid with
  | none => .error .notFound
  | some p =>
    if !(isMember s p pr.id) then .error .notFound
    else if f.title == "" then .error .validationError
    else
      let assignee : Option Nat :=
        match f.assignee_id with
        | some v => v
        | none => none
      let insert : State :=
        { s with tasks := s.tasks ++ [{
            id := newTaskId s
            title := f.title
            description := f.description
            status := f.status
            priority := f.priority
            projectId := pid
            assignee := assignee }] }
      match assignee with
      | some a => if !(isMember s p a) then .error .conflict else .ok insert
      | none => .ok insert

/-- Modelled from the spec (section 4.2 UpdateTask): a field absent from
the wire payload is left unchanged; an explicit assignee null unsets;
a provided assignee id is revalidated against current membership. -/
def applyTaskUpdate (t : Task) (u : TaskUpdate) : Task :=
  { t with
    title := u.title.getD t.title
    description :=
      match u.description with
      | some d => some d
      | none => t.description
    status := u.status.getD t.status
    priority := u.priority.getD t.priority
    assignee :=
      match u.assignee_id with
      | some v => v
      | none => t.assignee }

/-- Modelled from the spec (section 4.2 UpdateTask): member of the task's
project only; reassignment revalidated exactly as in CreateTask; the
explicit unassign (`some none` on the wire) is always permitted. -/
def updateTask (s : State) (tid : Nat) (u : TaskUpdate) (pr : Principal) :
    Except Err State :=
  match findTask s tid with
  | none => .error .notFound
  | some t =>
    match findProject s t.projectId with
    | none => .error .notFound
    | some p =>
      if !(isMember s p pr.id) then .error .notFound
      else
        let apply : State :=
          { s with tasks := s.tasks.map (fun t2 =>
              if t2.id == tid then applyTaskUpdate t2 u else t2) }
        match u.assignee_id with
        | some (some a) =>
            if !(isMember s p a) then .error .conflict else .ok apply
        | _ => .ok apply

/-- Modelled from the spec (sections 4.1 and 4.2 DeleteTask): existence
and tenant isolation first, then the role rule — only a lead who is a
member of the task's project may delete; removes the row, no cascades. -/
def deleteTask (s : State) (tid : Nat) (pr : Principal) : Except Err State :=
  match findTask s tid with
  | none => .error .notFound
  | some t =>
    match findProject s t.projectId with
    | none => .error .notFound
    | some p =>
      if !(isMember s p pr.id) then .error .notFound
      else if pr.role != Role.lead then .error .forbidden
      else .ok { s with tasks := s.tasks.filter (fun t2 => !(t2.id == tid)) }

/-- Modelled from the spec: the mutating command surface (section 2). -/
inductive Cmd where
  | createProject (title : String) (descr : Option String) (pr : Principal)
  | updateProject (pid : Nat) (u : ProjectUpdate) (pr : Principal)
  | deleteProject (pid : Nat) (pr : Principal)
  | addMember (pid uid : Nat) (pr : Principal)
  | removeMember (pid uid : Nat) (pr : Principal)
  | createTask (pid : Nat) (f : TaskCreate) (pr : Principal)
  | updateTask (tid : Nat) (u : TaskUpdate) (pr : Principal)
  | deleteTask (tid : Nat) (pr : Principal)
deriving Repr

/-- Modelled from the spec: each command runs as one transaction — it
either commits (the new state) or aborts with the state unchanged
(sections 5 and 7). -/
def step (s : State) (c : Cmd) : State :=
  match c with
  | .createProject title descr pr =>
      match createProject s title descr pr with
      | .ok (s2, _) => s2
      | .error _ => s
  | .updateProject pid u pr =>
      match updateProject s pid u pr with
      | .ok s2 => s2
      | .error _ => s
  | .deleteProject pid pr =>
      match deleteProject s pid pr with
      | .ok s2 => s2
      | .error _ => s
  | .addMember pid uid pr =>
      match addMember s pid uid pr with
      | .ok s2 => s2
      | .error _ => s
  | .removeMember pid uid pr =>
      match removeMember s pid uid pr with
      | .ok s2 => s2
      | .error _ => s
  | .createTask pid f pr =>
      match createTask s pid f pr with
      | .ok s2 => s2
      | .error _ => s
  | .updateTask tid u pr =>
      match updateTask s tid u pr with
      | .ok s2 => s2
      | .error _ => s
  | .deleteTask tid pr =>
      match deleteTask s tid pr with
      | .ok s2 => s2
      | .error _ => s

/-- Modelled from the spec: a sequence of committed commands. -/
def runAll (s : State) (cs : List Cmd) : State :=
  cs.foldl step s

/-- The assignment invariant of section 3: every task's assignee, if set,
is an element of its project's member set. -/
def AssigneeInv (s : State) : Prop :=
  ∀ t ∈ s.tasks, ∀ a, t.assignee = some a →
    ∃ p, findProject s t.projectId = some p ∧ a ∈ memberSet s p

/-- Store well-formedness: task ids are primary keys. -/
def TaskIdsNodup (s : State) : Prop :=
  (s.tasks.map (fun t => t.id)).Nodup

/-! Auxiliary list facts. -/

theorem mem_le_foldr_max {l : List Nat} {a : Nat} (h : a ∈ l) (b : Nat) :
    a ≤ l.foldr max b := by
  induction l with
  | nil => cases h
  | cons x xs ih =>
    rcases List.mem_cons.mp h with h1 | h1
    · subst h1; exact le_max_left _ _
    · exact le_trans (ih h1) (le_max_right _ _)

/-- A freshly generated task id differs from every stored task id. -/
theorem task_id_ne_newTaskId {s : State} {t : Task} (h : t ∈ s.tasks) :
    t.id ≠ newTaskId s := by
  have h1 : t.id ≤ (s.tasks.map (fun t => t.id)).foldr max 0 :=
    mem_le_foldr_max (List.mem_map_of_mem _ h) 0
  have h2 : (s.tasks.map (fun t => t.id)).foldr max 0 < newTaskId s :=
    Nat.lt_succ_self _
  omega

/-- With distinct ids, any stored task whose id matches a successful
lookup is that lookup's result. -/
theorem eq_of_find_of_nodup {l : List Task} {t t2 : Task} {tid : Nat}
    (hf : l.find? (fun x => x.id == tid) = some t)
    (h2 : t2 ∈ l) (hid : t2.id = tid)
    (hnd : (l.map (fun x => x.id)).Nodup) : t2 = t := by
  induction l with
  | nil => cases h2
  | cons x xs ih =>
    rw [List.map_cons, List.nodup_cons] at hnd
    by_cases hx : x.id = tid
    · rw [List.find?_cons_of_pos _ (by simpa using hx)] at hf
      cases hf
      rcases List.mem_cons.mp h2 with h3 | h3
      · exact h3
      · have h4 : t2.id ∈ xs.map (fun x => x.id) := List.mem_map_of_mem _ h3
        rw [hid, ← hx] at h4
        exact absurd h4 hnd.1
    · rw [List.find?_cons_of_neg _ (by simpa using hx)] at hf
      rcases List.mem_cons.mp h2 with h3 | h3
      · exact absurd (h3 ▸ hid) hx
      · exact ih hf h3 hnd.2

/-! The member set only depends on the membership edges, and lookups are
stable under the store mutations that leave the relevant rows alone. -/

theorem memberSet_mk (users : List User) (projects : List Project)
    (memberships : List (Nat × Nat)) (tasks : List Task) (p : Project) :
    memberSet ⟨users, projects, memberships, tasks⟩ p =
      p.owner :: (memberships.filter (fun e => e.1 == p.id)).map (fun e => e.2) := rfl

/-- Appending a membership edge only grows every member set. -/
theorem mem_memberSet_append_edge {s : State} {p : Project} {a : Nat}
    (h : a ∈ memberSet s p) (e : Nat × Nat) :
    a ∈ memberSet { s with memberships := s.memberships ++ [e] } p := by
  simp only [memberSet, List.filter_append, List.map_append] at h ⊢
  rcases List.mem_cons.mp h with h1 | h1
  · exact h1 ▸ List.mem_cons_self _ _
  · exact List.mem_cons_of_mem _ (List.mem_append_left _ h1)

/-- Removing the edge of one user keeps every other user's membership. -/
theorem mem_memberSet_remove_edge {s : State} {p : Project} {a pid uid : Nat}
    (h : a ∈ memberSet s p) (hne : a ≠ uid) :
    a ∈ memberSet
      { s with
        memberships := s.memberships.filter (fun e => !(e.1 == pid && e.2 == uid)),
        tasks := s.tasks.map (fun t =>
          if t.projectId == pid && t.assignee == some uid then
            { t with assignee := none }
          else t) } p := by
  simp only [memberSet] at h ⊢
  rcases List.mem_cons.mp h with h1 | h1
  · exact h1 ▸ List.mem_cons_self _ _
  · rcases List.mem_map.mp h1 with ⟨e, he, hea⟩
    rcases List.mem_filter.mp he with ⟨he1, he2⟩
    refine List.mem_cons_of_mem _ (List.mem_map.mpr ⟨e, List.mem_filter.mpr ⟨?_, he2⟩, hea⟩)
    refine List.mem_filter.mpr ⟨he1, ?_⟩
    simp only [Bool.not_eq_true', Bool.and_eq_false_iff, beq_eq_false_iff_ne]
    right
    exact hea ▸ hne

/-- Deleting one project's edges keeps the member sets of projects with a
different id. -/
theorem memberSet_delete_edges {s : State} {p : Project} {pid : Nat}
    (hne : p.id ≠ pid) (projects : List Project) (tasks : List Task) :
    memberSet
      { s with
        projects := projects,
        memberships := s.memberships.filter (fun e => !(e.1 == pid)),
        tasks := tasks } p = memberSet s p := by
  simp only [memberSet, List.filter_filter]
  congr 2
  apply List.filter_congr
  intro e _
  by_cases h1 : e.1 = p.id
  · simp [h1, hne]
  · simp [h1]

/-! Success characterizations of the commands. -/

theorem createProject_ok {s : State} {title : String} {descr : Option String}
    {pr : Principal} {s' : State} {p : Project}
    (h : createProject s title descr pr = .ok (s', p)) :
    pr.role = Role.lead ∧ title ≠ "" ∧
      p = { id := newProjectId s, title := title, description := descr, owner := pr.id } ∧
      s' = { s with projects := s.projects ++ [p] } := by
  by_cases h1 : pr.role = Role.lead
  · by_cases h2 : title = ""
    · simp [createProject, h1, h2] at h
    · have hbne : (pr.role != Role.lead) = false := by rw [h1]; exact bne_self_eq_false _
      simp only [createProject, hbne, Bool.false_eq_true, if_false,
        beq_iff_eq, if_neg h2, Except.ok.injEq, Prod.mk.injEq] at h
      exact ⟨h1, h2, h.2.symm, h.2 ▸ h.1.symm⟩
  · simp [createProject, bne_iff_ne, h1] at h

theorem addMember_ok {s : State} {pid uid : Nat} {pr : Principal} {s' : State}
    (h : addMember s pid uid pr = .ok s') :
    ∃ p, findProject s pid = some p ∧ isMember s p pr.id = true ∧
      pr.id = p.owner ∧ isMember s p uid = false ∧ userExists s uid = true ∧
      s' = { s with memberships := s.memberships ++ [(pid, uid)] } := by
  cases hf : findProject s pid with
  | none => simp [addMember, hf] at h
  | some p =>
    by_cases h1 : isMember s p pr.id = true
    · by_cases h2 : pr.id = p.owner
      · have hbne : (pr.id != p.owner) = false := by rw [h2]; exact bne_self_eq_false _
        by_cases h3 : isMember s p uid = true
        · simp [addMember, hf, h1, hbne, h3] at h
        · by_cases h4 : userExists s uid = true
          · refine ⟨p, rfl, h1, h2, by simpa using h3, h4, ?_⟩
            simp only [addMember, hf, h1, hbne, h3, h4, Bool.not_true, Bool.false_eq_true,
              if_false, Bool.not_false, if_true, Except.ok.injEq] at h
            exact h.symm
          · simp [addMember, hf, h1, hbne, h3, h4] at h
      · simp [addMember, hf, h1, bne_iff_ne, h2] at h
    · simp [addMember, hf, h1] at h

theorem removeMember_ok {s : State} {pid uid : Nat} {pr : Principal} {s' : State}
    (h : removeMember s pid uid pr = .ok s') :
    ∃ p, findProject s pid = some p ∧ isMember s p pr.id = true ∧
      pr.id = p.owner ∧ uid ≠ p.owner ∧ isMember s p uid = true ∧
      s' = { s with
        memberships := s.memberships.filter (fun e => !(e.1 == pid && e.2 == uid)),
        tasks := s.tasks.map (fun t =>
          if t.projectId == pid && t.assignee == some uid then
            { t with assignee := none }
          else t) } := by
  cases hf : findProject s pid with
  | none => simp [removeMember, hf] at h
  | some p =>
    by_cases h1 : isMember s p pr.id = true
    · by_cases h2 : pr.id = p.owner
      · have hbne : (pr.id != p.owner) = false := by rw [h2]; exact bne_self_eq_false _
        by_cases h3 : uid = p.owner
        · simp [removeMember, hf, h1, hbne, h3] at h
        · by_cases h4 : isMember s p uid = true
          · refine ⟨p, rfl, h1, h2, h3, h4, ?_⟩
            simp only [removeMember, hf, h1, hbne, beq_iff_eq, h3, h4, Bool.not_true,
              Bool.false_eq_true, if_false, Bool.not_false, if_true,
              Except.ok.injEq] at h
            exact h.symm
          · simp [removeMember, hf, h1, hbne, h3, h4] at h
      · simp [removeMember, hf, h1, bne_iff_ne, h2] at h
    · simp [removeMember, hf, h1] at h

theorem deleteProject_ok {s : State} {pid : Nat} {pr : Principal} {s' : State}
    (h : deleteProject s pid pr = .ok s') :
    ∃ p, findProject s pid = some p ∧ isMember s p pr.id = true ∧
      pr.id = p.owner ∧
      s' = { s with
        projects := s.projects.filter (fun q => !(q.id == pid)),
        memberships := s.memberships.filter (fun e => !(e.1 == pid)),
        tasks := s.tasks.filter (fun t => !(t.projectId == pid)) } := by
  cases hf : findProject s pid with
  | none => simp [deleteProject, hf] at h
  | some p =>
    by_cases h1 : isMember s p pr.id = true
    · by_cases h2 : pr.id = p.owner
      · have hbne : (pr.id != p.owner) = false := by rw [h2]; exact bne_self_eq_false _
        refine ⟨p, rfl, h1, h2, ?_⟩
        simp only [deleteProject, hf, h1, hbne, Bool.not_true, Bool.false_eq_true, if_false,
          Bool.not_false, if_true, Except.ok.injEq] at h
        exact h.symm
      · simp [deleteProject, hf, h1, bne_iff_ne, h2] at h
    · simp [deleteProject, hf, h1] at h

theorem updateProject_ok {s : State} {pid : Nat} {u : ProjectUpdate}
    {pr : Principal} {s' : State}
    (h : updateProject s pid u pr = .ok s') :
    ∃ p, findProject s pid = some p ∧ isMember s p pr.id = true ∧
      pr.id = p.owner ∧
      s' = { s with projects := s.projects.map (fun q =>
        if q.id == pid then
          { q with
            title := u.title.getD q.title
            description :=
              match u.description with
              | some d => some d
              | none => q.description }
        else q) } := by
  cases hf : findProject s pid with
  | none => simp [updateProject, hf] at h
  | some p =>
    by_cases h1 : isMember s p pr.id = true
    · by_cases h2 : pr.id = p.owner
      · have hbne : (pr.id != p.owner) = false := by rw [h2]; exact bne_self_eq_false _
        refine ⟨p, rfl, h1, h2, ?_⟩
        simp only [updateProject, hf, h1, hbne, Bool.not_true, Bool.false_eq_true, if_false,
          Bool.not_false, if_true, Except.ok.injEq] at h
        exact h.symm
      · simp [updateProject, hf, h1, bne_iff_ne, h2] at h
    · simp [updateProject, hf, h1] at h

theorem createTask_ok {s : State} {pid : Nat} {f : TaskCreate} {pr : Principal}
    {s' : State} (h : createTask s pid f pr = .ok s') :
    ∃ p, findProject s pid = some p ∧ isMember s p pr.id = true ∧
      f.title ≠ "" ∧
      (∀ a, f.assignee_id = some (some a) → isMember s p a = true) ∧
      s' = { s with tasks := s.tasks ++ [{
          id := newTaskId s
          title := f.title
          description := f.description
          status := f.status
          priority := f.priority
          projectId := pid
          assignee :=
            match f.assignee_id with
            | some v => v
            | none => none }] } := by
  cases hf : findProject s pid with
  | none => simp [createTask, hf] at h
  | some p =>
    by_cases h1 : isMember s p pr.id = true
    · by_cases h2 : f.title = ""
      · simp [createTask, hf, h1, h2] at h
      · cases hv : f.assignee_id with
        | none =>
          refine ⟨p, rfl, h1, h2, by simp [hv], ?_⟩
          simp only [createTask, hf, h1, h2, hv, Bool.not_true, Bool.false_eq_true,
            if_false, beq_iff_eq, if_neg h2, Except.ok.injEq] at h
          exact h.symm
        | some v =>
          cases v with
          | none =>
            refine ⟨p, rfl, h1, h2, by simp [hv], ?_⟩
            simp only [createTask, hf, h1, h2, hv, Bool.not_true, Bool.false_eq_true,
              if_false, beq_iff_eq, if_neg h2, Except.ok.injEq] at h
            exact h.symm
          | some a =>
            by_cases h3 : isMember s p a = true
            · refine ⟨p, rfl, h1, h2, fun a2 h4 => by simp [hv] at h4; exact h4 ▸ h3, ?_⟩
              simp only [createTask, hf, h1, h2, hv, h3, Bool.not_true, Bool.false_eq_true,
                if_false, beq_iff_eq, if_neg h2, Bool.not_false, if_true,
                Except.ok.injEq] at h
              exact h.symm
            · simp [createTask, hf, h1, h2, hv, h3] at h
    · simp [createTask, hf, h1] at h

theorem updateTask_ok {s : State} {tid : Nat} {u : TaskUpdate} {pr : Principal}
    {s' : State} (h : updateTask s tid u pr = .ok s') :
    ∃ t p, findTask s tid = some t ∧ findProject s t.projectId = some p ∧
      isMember s p pr.id = true ∧
      (∀ a, u.assignee_id = some (some a) → isMember s p a = true) ∧
      s' = { s with tasks := s.tasks.map (fun t2 =>
          if t2.id == tid then applyTaskUpdate t2 u else t2) } := by
  cases hft : findTask s tid with
  | none => simp [updateTask, hft] at h
  | some t =>
    cases hf : findProject s t.projectId with
    | none => simp [updateTask, hft, hf] at h
    | some p =>
      by_cases h1 : isMember s p pr.id = true
      · cases hv : u.assignee_id with
        | none =>
          refine ⟨t, p, rfl, hf, h1, by simp [hv], ?_⟩
          simp only [updateTask, hft, hf, h1, hv, Bool.not_true, Bool.false_eq_true,
            if_false, Except.ok.injEq] at h
          exact h.symm
        | some v =>
          cases v with
          | none =>
            refine ⟨t, p, rfl, hf, h1, by simp [hv], ?_⟩
            simp only [updateTask, hft, hf, h1, hv, Bool.not_true, Bool.false_eq_true,
              if_false, Except.ok.injEq] at h
            exact h.symm
          | some a =>
            by_cases h3 : isMember s p a = true
            · refine ⟨t, p, rfl, hf, h1, fun a2 h4 => by simp [hv] at h4; exact h4 ▸ h3, ?_⟩
              simp only [updateTask, hft, hf, h1, hv, h3, Bool.not_true,
                Bool.false_eq_true, if_false, Bool.not_false, if_true,
                Except.ok.injEq] at h
              exact h.symm
            · simp [updateTask, hft, hf, h1, hv, h3] at h
      · simp [updateTask, hft, hf, h1] at h

theorem deleteTask_ok {s : State} {tid : Nat} {pr : Principal} {s' : State}
    (h : deleteTask s tid pr = .ok s') :
    ∃ t p, findTask s tid = some t ∧ findProject s t.projectId = some p ∧
      isMember s p pr.id = true ∧ pr.role = Role.lead ∧
      s' = { s with tasks := s.tasks.filter (fun t2 => !(t2.id == tid)) } := by
  cases hft : findTask s tid with
  | none => simp [deleteTask, hft] at h
  | some t =>
    cases hf : findProject s t.projectId with
    | none => simp [deleteTask, hft, hf] at h
    | some p =>
      by_cases h1 : isMember s p pr.id = true
      · by_cases h2 : pr.role = Role.lead
        · have hbne : (pr.role != Role.lead) = false := by rw [h2]; exact bne_self_eq_false _
          refine ⟨t, p, rfl, hf, h1, h2, ?_⟩
          simp only [deleteTask, hft, hf, h1, hbne, Bool.not_true, Bool.false_eq_true,
            if_false, Bool.not_false, if_true, Except.ok.injEq] at h
          exact h.symm
        · simp [deleteTask, hft, hf, h1, bne_iff_ne, h2] at h
      · simp [deleteTask, hft, hf, h1] at h

/-! Preservation of the assignment invariant by every command. -/

/-- Filtering away only elements the query rejects does not change a
first-match lookup. -/
theorem find_filter_stable {α : Type} {g q : α → Bool} (l : List α)
    (h : ∀ x, q x = true → g x = true) : (l.filter g).find? q = l.find? q := by
  induction l with
  | nil => rfl
  | cons x xs ih =>
    rw [List.filter_cons]
    by_cases hgx : g x = true
    · rw [if_pos hgx]
      by_cases hq : q x = true
      · rw [List.find?_cons_of_pos _ hq, List.find?_cons_of_pos _ hq]
      · rw [List.find?_cons_of_neg _ hq, List.find?_cons_of_neg _ hq, ih]
    · rw [if_neg hgx]
      have hq : ¬ q x = true := fun hq2 => hgx (h x hq2)
      rw [List.find?_cons_of_neg _ hq, ih]

/-- Removing another project's edges keeps membership. -/
theorem mem_memberSet_remove_edge_ne {s : State} {p : Project} {a pid uid : Nat}
    (h : a ∈ memberSet s p) (hne : p.id ≠ pid) :
    a ∈ memberSet
      { s with
        memberships := s.memberships.filter (fun e => !(e.1 == pid && e.2 == uid)),
        tasks := s.tasks.map (fun t =>
          if t.projectId == pid && t.assignee == some uid then
            { t with assignee := none }
          else t) } p := by
  simp only [memberSet] at h ⊢
  rcases List.mem_cons.mp h with h1 | h1
  · exact h1 ▸ List.mem_cons_self _ _
  · rcases List.mem_map.mp h1 with ⟨e, he, hea⟩
    rcases List.mem_filter.mp he with ⟨he1, he2⟩
    refine List.mem_cons_of_mem _ (List.mem_map.mpr ⟨e, List.mem_filter.mpr ⟨?_, he2⟩, hea⟩)
    refine List.mem_filter.mpr ⟨he1, ?_⟩
    simp only [Bool.not_eq_true', Bool.and_eq_false_iff, beq_eq_false_iff_ne]
    left
    have he3 : e.1 = p.id := by simpa using he2
    exact he3 ▸ hne

theorem assigneeInv_createProject {s : State} {title : String}
    {descr : Option String} {pr : Principal} {s' : State} {p : Project}
    (h : createProject s title descr pr = .ok (s', p))
    (hinv : AssigneeInv s) : AssigneeInv s' := by
  obtain ⟨-, -, -, hs⟩ := createProject_ok h
  subst hs
  intro t ht a ha
  obtain ⟨q, hq1, hq2⟩ := hinv t ht a ha
  refine ⟨q, ?_, hq2⟩
  simp only [findProject] at hq1 ⊢
  rw [List.find?_append, hq1]
  rfl

theorem assigneeInv_updateProject {s : State} {pid : Nat} {u : ProjectUpdate}
    {pr : Principal} {s' : State}
    (h : updateProject s pid u pr = .ok s')
    (hinv : AssigneeInv s) : AssigneeInv s' := by
  obtain ⟨-, -, -, -, hs⟩ := updateProject_ok h
  subst hs
  intro t ht a ha
  obtain ⟨q, hq1, hq2⟩ := hinv t ht a ha
  set f : Project → Project := fun q2 =>
    if q2.id == pid then
      { q2 with
        title := u.title.getD q2.title
        description :=
          match u.description with
          | some d => some d
          | none => q2.description }
    else q2 with hfdef
  have hid : ∀ q2 : Project, (f q2).id = q2.id := by
    intro q2
    by_cases h2 : q2.id = pid <;> simp [hfdef, h2]
  have howner : ∀ q2 : Project, (f q2).owner = q2.owner := by
    intro q2
    by_cases h2 : q2.id = pid <;> simp [hfdef, h2]
  refine ⟨f q, ?_, ?_⟩
  · simp only [findProject] at hq1 ⊢
    rw [List.find?_map]
    have hcomp : ((fun p2 : Project => p2.id == t.projectId) ∘ f) =
        (fun p2 : Project => p2.id == t.projectId) := by
      funext q2
      simp [Function.comp, hid q2]
    rw [hcomp, hq1]
    rfl
  · simpa only [memberSet, howner q, hid q] using hq2

theorem assigneeInv_deleteProject {s : State} {pid : Nat} {pr : Principal}
    {s' : State} (h : deleteProject s pid pr = .ok s')
    (hinv : AssigneeInv s) : AssigneeInv s' := by
  obtain ⟨-, -, -, -, hs⟩ := deleteProject_ok h
  subst hs
  intro t ht a ha
  obtain ⟨ht1, ht2⟩ := List.mem_filter.mp ht
  have htpid : t.projectId ≠ pid := by simpa using ht2
  obtain ⟨q, hq1, hq2⟩ := hinv t ht1 a ha
  have hqid : q.id = t.projectId := by
    have h3 := List.find?_some hq1
    simpa using h3
  refine ⟨q, ?_, ?_⟩
  · simp only [findProject] at hq1 ⊢
    rw [find_filter_stable s.projects ?_, hq1]
    intro x hx
    have hx2 : x.id = t.projectId := by simpa using hx
    simp [hx2, htpid]
  · rw [memberSet_delete_edges (hqid ▸ htpid)]
    exact hq2

theorem assigneeInv_addMember {s : State} {pid uid : Nat} {pr : Principal}
    {s' : State} (h : addMember s pid uid pr = .ok s')
    (hinv : AssigneeInv s) : AssigneeInv s' := by
  obtain ⟨p, -, -, -, -, -, hs⟩ := addMember_ok h
  subst hs
  intro t ht a ha
  obtain ⟨q, hq1, hq2⟩ := hinv t ht a ha
  exact ⟨q, hq1, mem_memberSet_append_edge hq2 (pid, uid)⟩

theorem assigneeInv_removeMember {s : State} {pid uid : Nat} {pr : Principal}
    {s' : State} (h : removeMember s pid uid pr = .ok s')
    (hinv : AssigneeInv s) : AssigneeInv s' := by
  obtain ⟨p, -, -, -, -, -, hs⟩ := removeMember_ok h
  subst hs
  intro t ht a ha
  obtain ⟨t0, ht0, ht0e⟩ := List.mem_map.mp ht
  by_cases hc : (t0.projectId == pid && t0.assignee == some uid) = true
  · rw [if_pos hc] at ht0e
    rw [← ht0e] at ha
    cases ha
  · rw [if_neg hc] at ht0e
    subst ht0e
    obtain ⟨q, hq1, hq2⟩ := hinv t0 ht0 a ha
    have hqid : q.id = t0.projectId := by simpa using List.find?_some hq1
    have hc2 : t0.projectId = pid → ¬ t0.assignee = some uid := by
      simpa [Bool.and_eq_true, beq_iff_eq] using hc
    by_cases hpp : t0.projectId = pid
    · have hane := hc2 hpp
      have haun : a ≠ uid := fun he => hane (he ▸ ha)
      exact ⟨q, hq1, mem_memberSet_remove_edge hq2 haun⟩
    · exact ⟨q, hq1, mem_memberSet_remove_edge_ne hq2 (hqid ▸ hpp)⟩

theorem assigneeInv_createTask {s : State} {pid : Nat} {f : TaskCreate}
    {pr : Principal} {s' : State} (h : createTask s pid f pr = .ok s')
    (hinv : AssigneeInv s) : AssigneeInv s' := by
  obtain ⟨p, hp, -, -, hassg, hs⟩ := createTask_ok h
  subst hs
  intro t ht a ha
  rcases List.mem_append.mp ht with ht1 | ht1
  · obtain ⟨q, hq1, hq2⟩ := hinv t ht1 a ha
    exact ⟨q, hq1, hq2⟩
  · have ht2 := List.mem_singleton.mp ht1
    subst ht2
    have hfa : f.assignee_id = some (some a) := by
      cases hv : f.assignee_id with
      | none =>
        simp only [hv] at ha
        cases ha
      | some v =>
        simp only [hv] at ha
        exact congrArg some ha
    have hm := hassg a hfa
    refine ⟨p, hp, ?_⟩
    simpa [isMember] using hm

theorem assigneeInv_updateTask {s : State} {tid : Nat} {u : TaskUpdate}
    {pr : Principal} {s' : State} (h : updateTask s tid u pr = .ok s')
    (hnd : TaskIdsNodup s) (hinv : AssigneeInv s) : AssigneeInv s' := by
  obtain ⟨t, p, hft, hp, -, hassg, hs⟩ := updateTask_ok h
  subst hs
  intro t2 ht2 a ha
  obtain ⟨t0, ht0, ht0e⟩ := List.mem_map.mp ht2
  by_cases hc : (t0.id == tid) = true
  · rw [if_pos hc] at ht0e
    have ht0t : t0 = t :=
      eq_of_find_of_nodup hft ht0 (by simpa using hc) hnd
    subst ht0t
    subst ht0e
    have hpid : (applyTaskUpdate t0 u).projectId = t0.projectId := rfl
    cases hv : u.assignee_id with
    | none =>
      have ha0 : t0.assignee = some a := by
        have : (applyTaskUpdate t0 u).assignee = t0.assignee := by
          simp [applyTaskUpdate, hv]
        rwa [this] at ha
      obtain ⟨q, hq1, hq2⟩ := hinv t0 ht0 a ha0
      exact ⟨q, hq1, hq2⟩
    | some v =>
      have hav : (applyTaskUpdate t0 u).assignee = v := by
        simp [applyTaskUpdate, hv]
      rw [hav] at ha
      subst ha
      have hm := hassg a (by rw [hv])
      refine ⟨p, hp, ?_⟩
      simpa [isMember] using hm
  · rw [if_neg hc] at ht0e
    subst ht0e
    obtain ⟨q, hq1, hq2⟩ := hinv t0 ht0 a ha
    exact ⟨q, hq1, hq2⟩

theorem assigneeInv_deleteTask {s : State} {tid : Nat} {pr : Principal}
    {s' : State} (h : deleteTask s tid pr = .ok s')
    (hinv : AssigneeInv s) : AssigneeInv s' := by
  obtain ⟨t, p, -, -, -, -, hs⟩ := deleteTask_ok h
  subst hs
  intro t2 ht2 a ha
  obtain ⟨ht1, -⟩ := List.mem_filter.mp ht2
  obtain ⟨q, hq1, hq2⟩ := hinv t2 ht1 a ha
  exact ⟨q, hq1, hq2⟩

/-! Preservation of well-formedness (task ids stay distinct). -/

theorem nodup_filter_tasks {l : List Task} (g : Task → Bool)
    (h : (l.map (fun t => t.id)).Nodup) :
    ((l.filter g).map (fun t => t.id)).Nodup := by
  have hsub : (l.filter g).Sublist l := List.filter_sublist l
  exact (hsub.map (fun t => t.id)).nodup h

theorem nodup_map_tasks {l : List Task} (g : Task → Task)
    (hg : ∀ t, (g t).id = t.id) (h : (l.map (fun t => t.id)).Nodup) :
    ((l.map g).map (fun t => t.id)).Nodup := by
  rw [List.map_map]
  have hcong : l.map ((fun t : Task => t.id) ∘ g) = l.map (fun t => t.id) :=
    List.map_congr_left (fun t _ => hg t)
  rw [hcong]
  exact h

theorem taskIdsNodup_step (s : State) (c : Cmd) (hnd : TaskIdsNodup s) :
    TaskIdsNodup (step s c) := by
  cases c with
  | createProject title descr pr =>
    cases hop : createProject s title descr pr with
    | error e => simp [step, hop]; exact hnd
    | ok v =>
      obtain ⟨s2, p2⟩ := v
      obtain ⟨-, -, -, hs⟩ := createProject_ok hop
      simp only [step, hop]
      rw [hs]
      exact hnd
  | updateProject pid u pr =>
    cases hop : updateProject s pid u pr with
    | error e => simp [step, hop]; exact hnd
    | ok s2 =>
      obtain ⟨-, -, -, -, hs⟩ := updateProject_ok hop
      simp only [step, hop]
      rw [hs]
      exact hnd
  | deleteProject pid pr =>
    cases hop : deleteProject s pid pr with
    | error e => simp [step, hop]; exact hnd
    | ok s2 =>
      obtain ⟨-, -, -, -, hs⟩ := deleteProject_ok hop
      simp only [step, hop]
      rw [hs]
      exact nodup_filter_tasks _ hnd
  | addMember pid uid pr =>
    cases hop : addMember s pid uid pr with
    | error e => simp [step, hop]; exact hnd
    | ok s2 =>
      obtain ⟨-, -, -, -, -, -, hs⟩ := addMember_ok hop
      simp only [step, hop]
      rw [hs]
      exact hnd
  | removeMember pid uid pr =>
    cases hop : removeMember s pid uid pr with
    | error e => simp [step, hop]; exact hnd
    | ok s2 =>
      obtain ⟨-, -, -, -, -, -, hs⟩ := removeMember_ok hop
      simp only [step, hop]
      rw [hs]
      refine nodup_map_tasks _ ?_ hnd
      intro t
      by_cases hb : (t.projectId == pid && t.assignee == some uid) = true <;> simp [hb]
  | createTask pid f pr =>
    cases hop : createTask s pid f pr with
    | error e => simp [step, hop]; exact hnd
    | ok s2 =>
      obtain ⟨-, -, -, -, -, hs⟩ := createTask_ok hop
      simp only [step, hop]
      rw [hs]
      unfold TaskIdsNodup
      simp only [List.map_append, List.map_cons, List.map_nil]
      rw [List.nodup_append]
      refine ⟨hnd, List.nodup_singleton _, ?_⟩
      intro x hx hx2
      obtain ⟨t0, ht0, ht0e⟩ := List.mem_map.mp hx
      have hxeq : x = newTaskId s := by simpa using hx2
      exact task_id_ne_newTaskId ht0 (ht0e.trans hxeq)
  | updateTask tid u pr =>
    cases hop : updateTask s tid u pr with
    | error e => simp [step, hop]; exact hnd
    | ok s2 =>
      obtain ⟨-, -, -, -, -, -, hs⟩ := updateTask_ok hop
      simp only [step, hop]
      rw [hs]
      refine nodup_map_tasks _ ?_ hnd
      intro t
      by_cases hb : (t.id == tid) = true <;> simp [hb, applyTaskUpdate]
  | deleteTask tid pr =>
    cases hop : deleteTask s tid pr with
    | error e => simp [step, hop]; exact hnd
    | ok s2 =>
      obtain ⟨-, -, -, -, -, -, hs⟩ := deleteTask_ok hop
      simp only [step, hop]
      rw [hs]
      exact nodup_filter_tasks _ hnd

theorem assigneeInv_step (s : State) (c : Cmd) (hnd : TaskIdsNodup s)
    (hinv : AssigneeInv s) : AssigneeInv (step s c) := by
  cases c with
  | createProject title descr pr =>
    cases hop : createProject s title descr pr with
    | error e => simp [step, hop]; exact hinv
    | ok v =>
      obtain ⟨s2, p2⟩ := v
      simp only [step, hop]
      exact assigneeInv_createProject hop hinv
  | updateProject pid u pr =>
    cases hop : updateProject s pid u pr with
    | error e => simp [step, hop]; exact hinv
    | ok s2 =>
      simp only [step, hop]
      exact assigneeInv_updateProject hop hinv
  | deleteProject pid pr =>
    cases hop : deleteProject s pid pr with
    | error e => simp [step, hop]; exact hinv
    | ok s2 =>
      simp only [step, hop]
      exact assigneeInv_deleteProject hop hinv
  | addMember pid uid pr =>
    cases hop : addMember s pid uid pr with
    | error e => simp [step, hop]; exact hinv
    | ok s2 =>
      simp only [step, hop]
      exact assigneeInv_addMember hop hinv
  | removeMember pid uid pr =>
    cases hop : removeMember s pid uid pr with
    | error e => simp [step, hop]; exact hinv
    | ok s2 =>
      simp only [step, hop]
      exact assigneeInv_removeMember hop hinv
  | createTask pid f pr =>
    cases hop : createTask s pid f pr with
    | error e => simp [step, hop]; exact hinv
    | ok s2 =>
      simp only [step, hop]
      exact assigneeInv_createTask hop hinv
  | updateTask tid u pr =>
    cases hop : updateTask s tid u pr with
    | error e => simp [step, hop]; exact hinv
    | ok s2 =>
      simp only [step, hop]
      exact assigneeInv_updateTask hop hnd hinv
  | deleteTask tid pr =>
    cases hop : deleteTask s tid pr with
    | error e => simp [step, hop]; exact hinv
    | ok s2 =>
      simp only [step, hop]
      exact assigneeInv_deleteTask hop hinv

/-- Both invariants hold after any sequence of committed commands. -/
theorem runAll_preserves (cs : List Cmd) :
    ∀ s : State, TaskIdsNodup s → AssigneeInv s →
      TaskIdsNodup (runAll s cs) ∧ AssigneeInv (runAll s cs) := by
  induction cs with
  | nil => exact fun s hnd hinv => ⟨hnd, hinv⟩
  | cons c cs ih =>
    intro s hnd hinv
    exact ih (step s c) (taskIdsNodup_step s c hnd) (assigneeInv_step s c hnd hinv)

end Server

/-! Claim theorems. -/

/-- C1: for every task whose assignee is set, the assignee is an element
of the owning project's member set at every post-commit observation point
(any sequence of committed commands preserves the invariant), and the
task-creation and task-editing forms offer as selectable assignees exactly
the project's member list plus an explicit Unassigned choice. -/
theorem C1_assignee_invariant :
    (∀ (members : List User) (o : Option Nat),
        (o ∈ createTaskAssigneeOptions members ↔
          o = none ∨ ∃ m ∈ members, o = some m.id) ∧
        (o ∈ editTaskAssigneeOptions members ↔
          o = none ∨ ∃ m ∈ members, o = some m.id)) ∧
    (∀ (s : Server.State) (cs : List Server.Cmd),
        Server.TaskIdsNodup s → Server.AssigneeInv s →
        Server.AssigneeInv (Server.runAll s cs)) := by
  constructor
  · intro members o
    constructor <;>
      · simp only [createTaskAssigneeOptions, editTaskAssigneeOptions,
          List.mem_cons, List.mem_map]
        constructor
        · rintro (h | ⟨m, hm, he⟩)
          · exact Or.inl h
          · exact Or.inr ⟨m, hm, he.symm⟩
        · rintro (h | ⟨m, hm, he⟩)
          · exact Or.inl h
          · exact Or.inr ⟨m, hm, he.symm⟩
  · intro s cs hnd hinv
    exact (Server.runAll_preserves cs s hnd hinv).2

/-- Fixture: an initial store for the invariant witness — two users, no
projects, no tasks. -/
def stateC1 : Server.State :=
  { users := [⟨1, "lead@devsprint.dev", "Lena Lead", Role.lead⟩,
              ⟨2, "dev@devsprint.dev", "Devon Dev", Role.dev⟩]
    projects := []
    memberships := []
    tasks := [] }

/-- Fixture: the scenario of spec section 8 — create a project, invite the
developer, create a task assigned to the developer, remove the developer. -/
def cmdsC1 : List Server.Cmd :=
  [ .createProject "Sprint 1" none ⟨1, Role.lead⟩
  , .addMember 1 2 ⟨1, Role.lead⟩
  , .createTask 1 ⟨"Fix bug", none, TaskStatus.todo, Priority.medium, some (some 2)⟩
      ⟨1, Role.lead⟩
  , .removeMember 1 2 ⟨1, Role.lead⟩ ]

theorem C1_assignee_invariant_witness :
    Server.TaskIdsNodup stateC1 ∧ Server.AssigneeInv stateC1 ∧
      Server.AssigneeInv (Server.runAll stateC1 cmdsC1) :=
  ⟨by simp [Server.TaskIdsNodup, stateC1],
   by simp [Server.AssigneeInv, stateC1],
   C1_assignee_invariant.2 stateC1 cmdsC1
     (by simp [Server.TaskIdsNodup, stateC1])
     (by simp [Server.AssigneeInv, stateC1])⟩

/-- C2: the owner is always an element of the member set, the
member-management interface never offers a remove action for the member
row whose id equals the owner id, and RemoveMember targeting the owner
never commits — for the authorized principal it yields Conflict. -/
theorem C2_owner_protection :
    (∀ (s : Server.State) (p : Server.Project), p.owner ∈ Server.memberSet s p) ∧
    (∀ (user : Option User) (ownerId : Nat),
        canRemoveFor user ownerId ownerId = false) ∧
    (∀ (s : Server.State) (pid : Nat) (pr : Server.Principal)
        (p : Server.Project) (s2 : Server.State),
        Server.findProject s pid = some p →
        Server.removeMember s pid p.owner pr ≠ .ok s2) ∧
    (∀ (s : Server.State) (pid : Nat) (pr : Server.Principal) (p : Server.Project),
        Server.findProject s pid = some p → pr.id = p.owner →
        Server.removeMember s pid p.owner pr = .error .conflict) := by
  refine ⟨?_, ?_, ?_, ?_⟩
  · intro s p
    exact List.mem_cons_self _ _
  · intro user ownerId
    simp [canRemoveFor]
  · intro s pid pr p s2 hf h
    obtain ⟨p2, hf2, -, -, hne, -, -⟩ := Server.removeMember_ok h
    rw [hf] at hf2
    exact hne (congrArg Server.Project.owner (Option.some.inj hf2))
  · intro s pid pr p hf hpr
    have hm : Server.isMember s p pr.id = true := by
      simp [Server.isMember, Server.memberSet, hpr]
    have hbne : (pr.id != p.owner) = false := by
      rw [hpr]; exact bne_self_eq_false _
    simp [Server.removeMember, hf, hm, hbne]

/-- Fixture: a store with one project owned by user 1 with invited member 2. -/
def stateC2 : Server.State :=
  { users := [⟨1, "lead@devsprint.dev", "Lena Lead", Role.lead⟩,
              ⟨2, "dev@devsprint.dev", "Devon Dev", Role.dev⟩]
    projects := [⟨1, "Sprint 1", none, 1⟩]
    memberships := [(1, 2)]
    tasks := [] }

theorem C2_owner_protection_witness :
    Server.findProject stateC2 1 = some ⟨1, "Sprint 1", none, 1⟩ ∧
      (⟨1, Role.lead⟩ : Server.Principal).id =
        (⟨1, "Sprint 1", none, 1⟩ : Server.Project).owner ∧
      Server.removeMember stateC2 1
        (⟨1, "Sprint 1", none, 1⟩ : Server.Project).owner
        ⟨1, Role.lead⟩ = .error .conflict :=
  ⟨by decide, by decide,
   C2_owner_protection.2.2.2 stateC2 1 ⟨1, Role.lead⟩ ⟨1, "Sprint 1", none, 1⟩
     (by decide) (by decide)⟩

/-- Fixture for the permission slip in the member-management interface: a
project owned by user 1 whose member rows include users 2 and 3; the
authenticated principal is a lead whose id is 2 — not the owner. -/
def stateC3 : Server.State :=
  { users := [⟨1, "lead@devsprint.dev", "Lena Lead", Role.lead⟩,
              ⟨2, "lead2@devsprint.dev", "Lee Lead", Role.lead⟩,
              ⟨3, "dev@devsprint.dev", "Devon Dev", Role.dev⟩]
    projects := [⟨1, "Sprint 1", none, 1⟩]
    memberships := [(1, 2), (1, 3)]
    tasks := [] }

/-- C3 fails on the code: `canRemove = isLead && !isOwner` checks only the
principal's role, so the remove control IS offered to a lead-role
principal (id 2) who does not own the project (owner id 1), for the
member row of user 3 — while the backend rule modelled from the spec
denies that same principal with Forbidden. -/
theorem C3_lead_nonowner_remove_offered :
    canRemoveFor (some ⟨2, "lead2@devsprint.dev", "Lee Lead", Role.lead⟩) 3 1 = true ∧
    Server.removeMember stateC3 1 3 ⟨2, Role.lead⟩ = .error .forbidden := by
  constructor
  · rfl
  · rfl

/-- C4: when RemoveMember commits, the membership edge is gone and no task
of the project is still assigned to the removed user; when it fails, the
transaction leaves the state unchanged. -/
theorem C4_remove_member_cascade :
    (∀ (s : Server.State) (pid uid : Nat) (pr : Server.Principal)
        (s2 : Server.State),
        Server.removeMember s pid uid pr = .ok s2 →
        ((pid, uid) ∉ s2.memberships ∧
          ∀ t ∈ s2.tasks, t.projectId = pid → t.assignee ≠ some uid)) ∧
    (∀ (s : Server.State) (pid uid : Nat) (pr : Server.Principal)
        (e : Server.Err),
        Server.removeMember s pid uid pr = .error e →
        Server.step s (.removeMember pid uid pr) = s) := by
  constructor
  · intro s pid uid pr s2 h
    obtain ⟨p, -, -, -, -, -, hs⟩ := Server.removeMember_ok h
    subst hs
    constructor
    · intro hmem
      have h2 := (List.mem_filter.mp hmem).2
      simp at h2
    · intro t ht htp
      obtain ⟨t0, ht0, ht0e⟩ := List.mem_map.mp ht
      by_cases hc : (t0.projectId == pid && t0.assignee == some uid) = true
      · rw [if_pos hc] at ht0e
        rw [← ht0e]
        simp
      · rw [if_neg hc] at ht0e
        subst ht0e
        have hc2 : t0.projectId = pid → ¬ t0.assignee = some uid := by
          simpa [Bool.and_eq_true, beq_iff_eq] using hc
        exact hc2 htp
  · intro s pid uid pr e h
    simp [Server.step, h]

/-- Fixture: project 1 (owner 1, member 2) with a task assigned to user 2. -/
def stateC4 : Server.State :=
  { users := [⟨1, "lead@devsprint.dev", "Lena Lead", Role.lead⟩,
              ⟨2, "dev@devsprint.dev", "Devon Dev", Role.dev⟩]
    projects := [⟨1, "Sprint 1", none, 1⟩]
    memberships := [(1, 2)]
    tasks := [⟨1, "Fix bug", none, TaskStatus.todo, Priority.medium, 1, some 2⟩] }

/-- The state RemoveMember(1, 2) commits from `stateC4`. -/
def stateC4res : Server.State :=
  { users := stateC4.users
    projects := stateC4.projects
    memberships := []
    tasks := [⟨1, "Fix bug", none, TaskStatus.todo, Priority.medium, 1, none⟩] }

theorem C4_remove_member_cascade_witness :
    Server.removeMember stateC4 1 2 ⟨1, Role.lead⟩ = .ok stateC4res ∧
      ((1, 2) ∉ stateC4res.memberships ∧
        ∀ t ∈ stateC4res.tasks, t.projectId = 1 → t.assignee ≠ some 2) :=
  ⟨by rfl, C4_remove_member_cascade.1 stateC4 1 2 ⟨1, Role.lead⟩ stateC4res (by rfl)⟩

/-- Fixture: project 1 (owner 1, member 2) whose task 1 is assigned to
user 2 — the principal opens the edit form and selects Unassigned. -/
def stateC5 : Server.State :=
  { users := [⟨1, "lead@devsprint.dev", "Lena Lead", Role.lead⟩,
              ⟨2, "dev@devsprint.dev", "Devon Dev", Role.dev⟩]
    projects := [⟨1, "Sprint 1", none, 1⟩]
    memberships := [(1, 2)]
    tasks := [⟨1, "Fix bug", none, TaskStatus.todo, Priority.medium, 1, some 2⟩] }

/-- C5 fails on the code: selecting Unassigned puts JS `undefined` (not
`null`) into the payload built by `handleSubmit`, JSON serialization drops
the field, and the partial update leaves the assignee unchanged — the
whole update is a no-op on this state and the task is still assigned to
user 2 afterwards. -/
theorem C5_unassign_never_sent :
    (buildEditTaskUpdate "Fix bug" "" TaskStatus.todo Priority.medium none).assignee_id
        = none ∧
    Server.updateTask stateC5 1
        (buildEditTaskUpdate "Fix bug" "" TaskStatus.todo Priority.medium none)
        ⟨1, Role.lead⟩ = .ok stateC5 ∧
    (∀ t ∈ stateC5.tasks, t.assignee = some 2) :=
  ⟨rfl, rfl, by decide⟩

/-- C6: the invite form offers exactly the users whose id is not in the
current member set, and AddMember on a user who is already a member
(including the owner) yields Conflict for the authorized principal. -/
theorem C6_duplicate_membership :
    (∀ (allU cur : List User) (u : User),
        u ∈ availableUsers allU cur ↔
          u ∈ allU ∧ u.id ∉ cur.map (fun m => m.id)) ∧
    (∀ (s : Server.State) (pid uid : Nat) (pr : Server.Principal)
        (p : Server.Project),
        Server.findProject s pid = some p → pr.id = p.owner →
        uid ∈ Server.memberSet s p →
        Server.addMember s pid uid pr = .error .conflict) := by
  constructor
  · intro allU cur u
    simp [availableUsers, List.mem_filter, List.contains]
  · intro s pid uid pr p hf hpr hu
    have hm : Server.isMember s p pr.id = true := by
      simp [Server.isMember, Server.memberSet, hpr]
    have hbne : (pr.id != p.owner) = false := by
      rw [hpr]; exact bne_self_eq_false _
    have hu2 : Server.isMember s p uid = true := by
      simp [Server.isMember, hu]
    simp [Server.addMember, hf, hm, hbne, hu2]

/-- Fixture: project 1 owned by user 1 with invited member 2; user 2 is
invited a second time. -/
def stateC6 : Server.State :=
  { users := [⟨1, "lead@devsprint.dev", "Lena Lead", Role.lead⟩,
              ⟨2, "dev@devsprint.dev", "Devon Dev", Role.dev⟩]
    projects := [⟨1, "Sprint 1", none, 1⟩]
    memberships := [(1, 2)]
    tasks := [] }

theorem C6_duplicate_membership_witness :
    Server.findProject stateC6 1 = some ⟨1, "Sprint 1", none, 1⟩ ∧
      (⟨1, Role.lead⟩ : Server.Principal).id =
        (⟨1, "Sprint 1", none, 1⟩ : Server.Project).owner ∧
      2 ∈ Server.memberSet stateC6 ⟨1, "Sprint 1", none, 1⟩ ∧
      Server.addMember stateC6 1 2 ⟨1, Role.lead⟩ = .error .conflict :=
  ⟨by decide, by decide, by decide,
   C6_duplicate_membership.2 stateC6 1 2 ⟨1, Role.lead⟩ ⟨1, "Sprint 1", none, 1⟩
     (by decide) (by decide) (by decide)⟩

/-- C7: the edit-task interface offers the delete control exactly when the
principal's role is lead, a dev-role member gets Forbidden from
DeleteTask, and DeleteTask commits only for a lead who is a member of the
task's project. -/
theorem C7_delete_task_lead_member :
    (∀ user : Option User,
        editTaskDeleteShown user = true ↔
          ∃ u, user = some u ∧ u.role = Role.lead) ∧
    (∀ (s : Server.State) (tid : Nat) (pr : Server.Principal)
        (t : Server.Task) (p : Server.Project),
        Server.findTask s tid = some t →
        Server.findProject s t.projectId = some p →
        pr.id ∈ Server.memberSet s p → pr.role = Role.dev →
        Server.deleteTask s tid pr = .error .forbidden) ∧
    (∀ (s : Server.State) (tid : Nat) (pr : Server.Principal)
        (s2 : Server.State),
        Server.deleteTask s tid pr = .ok s2 →
        pr.role = Role.lead ∧
          ∃ t p, Server.findTask s tid = some t ∧
            Server.findProject s t.projectId = some p ∧
            pr.id ∈ Server.memberSet s p) := by
  refine ⟨?_, ?_, ?_⟩
  · intro user
    cases user with
    | none => simp [editTaskDeleteShown, isLeadOf]
    | some u => simp [editTaskDeleteShown, isLeadOf]
  · intro s tid pr t p hft hf hm hrole
    have hm2 : Server.isMember s p pr.id = true := by
      simp [Server.isMember, hm]
    have hbne : (pr.role != Role.lead) = true := by
      rw [hrole]; rfl
    simp [Server.deleteTask, hft, hf, hm2, hbne]
  · intro s tid pr s2 h
    obtain ⟨t, p, hft, hf, hm, hrole, -⟩ := Server.deleteTask_ok h
    refine ⟨hrole, t, p, hft, hf, ?_⟩
    simpa [Server.isMember] using hm

/-- Fixture: project 1 (owner 1, member 2) with one task; user 2 is a
dev-role member. -/
def stateC7 : Server.State :=
  { users := [⟨1, "lead@devsprint.dev", "Lena Lead", Role.lead⟩,
              ⟨2, "dev@devsprint.dev", "Devon Dev", Role.dev⟩]
    projects := [⟨1, "Sprint 1", none, 1⟩]
    memberships := [(1, 2)]
    tasks := [⟨1, "Fix bug", none, TaskStatus.todo, Priority.medium, 1, some 2⟩] }

theorem C7_delete_task_lead_member_witness :
    Server.findTask stateC7 1 =
        some ⟨1, "Fix bug", none, TaskStatus.todo, Priority.medium, 1, some 2⟩ ∧
      Server.findProject stateC7 1 = some ⟨1, "Sprint 1", none, 1⟩ ∧
      2 ∈ Server.memberSet stateC7 ⟨1, "Sprint 1", none, 1⟩ ∧
      (⟨2, Role.dev⟩ : Server.Principal).role = Role.dev ∧
      Server.deleteTask stateC7 1 ⟨2, Role.dev⟩ = .error .forbidden :=
  ⟨by decide, by decide, by decide, by decide,
   C7_delete_task_lead_member.2.1 stateC7 1 ⟨2, Role.dev⟩
     ⟨1, "Fix bug", none, TaskStatus.todo, Priority.medium, 1, some 2⟩
     ⟨1, "Sprint 1", none, 1⟩ (by decide) (by decide) (by decide) (by decide)⟩

/-- C8: CreateProject with principal p produces a project owned by p whose
member list is the singleton containing p — both in the optimistic client
cache row and in the store modelled from the spec. -/
theorem C8_create_project_singleton :
    (∀ (nowId : Nat) (np : ProjectCreate) (u : User),
        (optimisticProject nowId np (some u)).owner_id = u.id ∧
        (optimisticProject nowId np (some u)).members = [u]) ∧
    (∀ (s : Server.State) (title : String) (descr : Option String)
        (pr : Server.Principal) (s2 : Server.State) (p : Server.Project),
        (∀ e ∈ s.memberships, e.1 ≠ Server.newProjectId s) →
        Server.createProject s title descr pr = .ok (s2, p) →
        p.owner = pr.id ∧ Server.memberSet s2 p = [pr.id]) := by
  constructor
  · intro nowId np u
    constructor
    · by_cases h : u.id = 0 <;> simp [optimisticProject, h]
    · rfl
  · intro s title descr pr s2 p hfresh h
    obtain ⟨-, -, hp, hs⟩ := Server.createProject_ok h
    subst hs
    subst hp
    refine ⟨rfl, ?_⟩
    simp only [Server.memberSet]
    have hnil : s.memberships.filter
        (fun e => e.1 == Server.newProjectId s) = [] := by
      rw [List.filter_eq_nil_iff]
      intro e he
      simpa using hfresh e he
    rw [hnil]
    rfl

/-- Fixture: a store with one registered lead and nothing else. -/
def stateC8 : Server.State :=
  { users := [⟨1, "lead@devsprint.dev", "Lena Lead", Role.lead⟩]
    projects := []
    memberships := []
    tasks := [] }

/-- The store and project CreateProject commits from `stateC8`. -/
def stateC8res : Server.State :=
  { users := stateC8.users
    projects := [⟨1, "Sprint 1", none, 1⟩]
    memberships := []
    tasks := [] }

theorem C8_create_project_singleton_witness :
    (∀ e ∈ stateC8.memberships, e.1 ≠ Server.newProjectId stateC8) ∧
      Server.createProject stateC8 "Sprint 1" none ⟨1, Role.lead⟩ =
        .ok (stateC8res, ⟨1, "Sprint 1", none, 1⟩) ∧
      (⟨1, "Sprint 1", none, 1⟩ : Server.Project).owner = 1 ∧
      Server.memberSet stateC8res ⟨1, "Sprint 1", none, 1⟩ = [1] :=
  ⟨by decide, by rfl,
   C8_create_project_singleton.2 stateC8 "Sprint 1" none ⟨1, Role.lead⟩
     stateC8res ⟨1, "Sprint 1", none, 1⟩ (by decide) (by rfl)⟩

/-- C9: status transitions are unconstrained — for every ordered pair of
distinct statuses, dropping a task from the first status column into the
second issues an update with the second status, with no guard on the
source status. -/
theorem C9_unconstrained_transitions :
    ∀ (s1 s2 : TaskStatus) (i1 i2 tid : Nat), s1 ≠ s2 →
      handleDragEnd ⟨some (s2, i2), (s1, i1), tid⟩ = some (tid, s2) := by
  intro s1 s2 i1 i2 tid h
  have hb : (s2 == s1) = false := by
    simp only [beq_eq_false_iff_ne]
    exact fun he => h he.symm
  simp [handleDragEnd, hb]

theorem C9_unconstrained_transitions_witness :
    (TaskStatus.todo ≠ TaskStatus.done) ∧
      handleDragEnd ⟨some (TaskStatus.done, 0), (TaskStatus.todo, 2), 5⟩ =
        some (5, TaskStatus.done) :=
  ⟨by decide,
   C9_unconstrained_transitions TaskStatus.todo TaskStatus.done 2 0 5 (by decide)⟩

/-- C10 as stated is false on the code: the error handler guards the
rollback with `if (context?.previousTasks)`, so when the query key held no
data before the mutation (the snapshot is JS `undefined`), a failed
project-create leaves the optimistically inserted row in the cache — the
observed client state is not the pre-mutation state.  Concrete input: the
projects cache holds no data, a lead submits the create form, the server
errors. -/
theorem C10_rollback_counterexample :
    createProjectFlow none 1 ⟨"Sprint 1", none⟩
      (some ⟨7, "lead@devsprint.dev", "Lena Lead", Role.lead⟩) true ≠ none := by
  simp [createProjectFlow]

/-- C10 amended: whenever the cache held a list before the mutation, a
failed request restores exactly that snapshot — for the drag-and-drop
status mutation, the project-create mutation, and the project-edit
mutation alike; the restoration is unconditional only in that case. -/
theorem C10_rollback_restores_snapshot :
    (∀ (l : List Task) (tid : Nat) (st : TaskStatus),
        updateTaskFlow (some l) tid st true = some l) ∧
    (∀ (l : List Project) (nowId : Nat) (np : ProjectCreate)
        (user : Option User),
        createProjectFlow (some l) nowId np user true = some l) ∧
    (∀ (l : List CachedProject) (pid : Nat) (u : ProjectUpdate),
        editProjectFlow (some l) pid u true = some l) :=
  ⟨fun _ _ _ => rfl, fun _ _ _ _ => rfl, fun _ _ _ => rfl⟩

end DevSprint

